import Mathlib

/-
Verification of the trend-following breakdown signal engine of the
rspandey1988/stockmarket repository.

The engine lives in `detect_weinstein_signals` (buy_sell.py,
Trading_Script1.py, Trading_Script4.py), in `detect_signals`
(momemtum_script.py) and in `check_breakdown` (9ema_exit_signal_alert.py).
Prices are embedded as exact rationals; a pandas/NumPy NaN is embedded as
the sentinel constructor `PVal.nan`, whose order comparisons are all false,
exactly like IEEE NaN comparisons in the Python source.

Parts of the scripts that only emit output (Telegram messages, print, CSV
export, plotting, and Trading_Script1's write-only portfolio timeline) read
the replay state but never influence it; they are not modelled.
-/

set_option linter.unusedVariables false

/-- Possibly-missing price value: `nan` embeds a pandas/NumPy NaN produced
by failed numeric coercion or by an indicator warm-up window. -/
inductive PVal where
  | nan : PVal
  | num : ℚ → PVal
deriving DecidableEq

/-- Embeds `pd.isna`. -/
def PVal.isna : PVal → Bool
  | .nan => true
  | .num _ => false

/-- Embeds a Python float `<` comparison: any comparison against NaN is false. -/
def PVal.lt : PVal → PVal → Bool
  | .num a, .num b => decide (a < b)
  | _, _ => false

/-- Numeric content of a value known (by an `isna` guard) to be defined. -/
def PVal.toQ : PVal → ℚ
  | .nan => 0
  | .num q => q

/-- Converts an optional indicator value (undefined during warm-up) to the
NaN sentinel that pandas stores in the dataframe column. -/
def optPVal : Option ℚ → PVal
  | none => .nan
  | some q => .num q

/-- One row of the annotated dataframe as consumed by the replay loop:
`date` stands for `df.index[i]` (dates are strictly ascending, so an
ordinal suffices), the rest are the `Close`, `WMA`, `WMA_Slope`, `EMA9`
and `Low` columns at row `i`. -/
structure BarData where
  date : ℕ
  close : PVal
  wma : PVal
  slope : PVal
  ema9 : PVal
  low : PVal
deriving DecidableEq

/-- The `current_trade` dict: entry fields filled at buy time, exit fields
filled when the trade is closed. -/
structure Trade where
  entryDate : ℕ
  entryPrice : ℚ
  exitDate : Option ℕ
  exitPrice : Option ℚ
  profit : Option ℚ
deriving DecidableEq

/-- The mutable loop state of `detect_weinstein_signals`. -/
structure St where
  in_position : Bool
  entry_price : ℚ
  trades : ℕ
  cash : ℚ
  shares : ℚ
  entry_date : Option ℕ
  current_trade : Option Trade
  breakdown_candle_low : Option PVal
  trade_details : List Trade
deriving DecidableEq

/-- Loop state just before the first bar is processed. -/
def initSt (capital : ℚ) : St :=
  { in_position := false
    entry_price := 0
    trades := 0
    cash := capital
    shares := 0
    entry_date := none
    current_trade := none
    breakdown_candle_low := none
    trade_details := [] }

/-- Fills the exit fields of the open trade dict. -/
def closeTrade (ct : Trade) (d : ℕ) (exit_price profit : ℚ) : Trade :=
  { ct with exitDate := some d, exitPrice := some exit_price, profit := some profit }

/-- Buy branch of buy_sell.py (lines 83-100): entry requires
`close > ema9 and close > wma and slope > 0`; `entry_price` and `shares`
are assigned before the `shares > 0` test, exactly as in the source. -/
def buyStep (s : St) (b : BarData) (close wma slope ema9 : ℚ) : St :=
  if s.in_position = false ∧ close > ema9 ∧ close > wma ∧ slope > 0 then
    if ((⌊s.cash / close⌋ : ℤ) : ℚ) > 0 then
      { s with cash := s.cash - ((⌊s.cash / close⌋ : ℤ) : ℚ) * close
               in_position := true
               entry_price := close
               shares := ((⌊s.cash / close⌋ : ℤ) : ℚ)
               entry_date := some b.date
               breakdown_candle_low := none
               current_trade := some { entryDate := b.date, entryPrice := close,
                                       exitDate := none, exitPrice := none, profit := none } }
    else
      { s with entry_price := close, shares := ((⌊s.cash / close⌋ : ℤ) : ℚ) }
  else s

/-- Buy branch of Trading_Script1.py (lines 112-127): same effect, but the
entry condition is only `close > wma and slope > 0` (no EMA test). -/
def buyStep1 (s : St) (b : BarData) (close wma slope : ℚ) : St :=
  if s.in_position = false ∧ close > wma ∧ slope > 0 then
    if ((⌊s.cash / close⌋ : ℤ) : ℚ) > 0 then
      { s with cash := s.cash - ((⌊s.cash / close⌋ : ℤ) : ℚ) * close
               in_position := true
               entry_price := close
               shares := ((⌊s.cash / close⌋ : ℤ) : ℚ)
               entry_date := some b.date
               breakdown_candle_low := none
               current_trade := some { entryDate := b.date, entryPrice := close,
                                       exitDate := none, exitPrice := none, profit := none } }
    else
      { s with entry_price := close, shares := ((⌊s.cash / close⌋ : ℤ) : ℚ) }
  else s

/-- Breakdown-candle tracking, identical in both scripts: while in a
position, the first bar whose close is below the EMA records its (raw,
unvalidated) `Low` as the breakdown candle low. -/
def trackStep (s : St) (b : BarData) (close ema9 : ℚ) : St :=
  if s.in_position = true ∧ close < ema9 then
    match s.breakdown_candle_low with
    | none => { s with breakdown_candle_low := some b.low }
    | some _ => s
  else s

/-- Exit branch of buy_sell.py (lines 107-123): sell when the close falls
below the recorded breakdown low; the completed trade is appended to
`trade_details` only when its profit is positive. -/
def exitStep (s : St) (b : BarData) (close : ℚ) : St :=
  if s.in_position = true then
    match s.breakdown_candle_low with
    | none => s
    | some bdl =>
      if PVal.lt (.num close) bdl then
        let exit_price := close
        let profit := (exit_price - s.entry_price) * s.shares
        let closed := s.current_trade.map fun ct => closeTrade ct b.date exit_price profit
        { s with cash := s.cash + s.shares * exit_price
                 trades := s.trades + 1
                 trade_details := if profit > 0 then s.trade_details ++ closed.toList
                                  else s.trade_details
                 current_trade := if profit > 0 then closed else s.current_trade
                 in_position := false
                 shares := 0
                 breakdown_candle_low := none }
      else s
  else s

/-- Exit branch of Trading_Script1.py (lines 134-149): identical
accounting, but the completed trade is always appended ("Log all trades"). -/
def exitStep1 (s : St) (b : BarData) (close : ℚ) : St :=
  if s.in_position = true then
    match s.breakdown_candle_low with
    | none => s
    | some bdl =>
      if PVal.lt (.num close) bdl then
        let exit_price := close
        let profit := (exit_price - s.entry_price) * s.shares
        let closed := s.current_trade.map fun ct => closeTrade ct b.date exit_price profit
        { s with cash := s.cash + s.shares * exit_price
                 trades := s.trades + 1
                 trade_details := s.trade_details ++ closed.toList
                 current_trade := closed
                 in_position := false
                 shares := 0
                 breakdown_candle_low := none }
      else s
  else s

/-- One iteration of the buy_sell.py replay loop (lines 72-123): a bar with
an indeterminate `Close`, `WMA`, `WMA_Slope` or `EMA9` is skipped
(`continue`); otherwise buy, breakdown tracking and exit run in order.
`Low` is read but never validated. -/
def buySellStep (s : St) (b : BarData) : St :=
  if b.close.isna ∨ b.wma.isna ∨ b.slope.isna ∨ b.ema9.isna then s
  else
    let close := b.close.toQ
    let wma := b.wma.toQ
    let slope := b.slope.toQ
    let ema9 := b.ema9.toQ
    exitStep (trackStep (buyStep s b close wma slope ema9) b close ema9) b close

/-- One iteration of the Trading_Script1.py replay loop (lines 101-156). -/
def script1Step (s : St) (b : BarData) : St :=
  if b.close.isna ∨ b.wma.isna ∨ b.slope.isna ∨ b.ema9.isna then s
  else
    let close := b.close.toQ
    let wma := b.wma.toQ
    let slope := b.slope.toQ
    let ema9 := b.ema9.toQ
    exitStep1 (trackStep (buyStep1 s b close wma slope) b close ema9) b close

/-- Final forced liquidation of buy_sell.py (lines 126-137): if still in a
position, sell at the last close; the terminal trade is appended only when
its profit is positive.  A NaN last close would poison the Python ledger
with NaN; that branch is left as the identity and every theorem touching
the finalisation assumes a defined last close. -/
def buySellFinalize (s : St) (b : BarData) : St :=
  if s.in_position = true then
    match b.close with
    | .nan => s
    | .num final_price =>
      let profit := (final_price - s.entry_price) * s.shares
      let closed := s.current_trade.map fun ct => closeTrade ct b.date final_price profit
      { s with cash := s.cash + s.shares * final_price
               trades := s.trades + 1
               trade_details := if profit > 0 then s.trade_details ++ closed.toList
                                else s.trade_details
               current_trade := if profit > 0 then closed else s.current_trade }
  else s

/-- Final forced liquidation of Trading_Script1.py (lines 159-168): the
terminal trade is always appended.  As in `buySellFinalize`, a NaN last
close (which would poison the Python ledger) is left as the identity and
excluded by hypothesis in every theorem about the finalisation. -/
def script1Finalize (s : St) (b : BarData) : St :=
  if s.in_position = true then
    match b.close with
    | .nan => s
    | .num final_price =>
      let profit := (final_price - s.entry_price) * s.shares
      let closed := s.current_trade.map fun ct => closeTrade ct b.date final_price profit
      { s with cash := s.cash + s.shares * final_price
               trades := s.trades + 1
               trade_details := s.trade_details ++ closed.toList
               current_trade := closed }
  else s

/-
Indicator pipeline, `compute_wma_and_slope` (buy_sell.py lines 37-43):
a 30-bar rolling linear-weighted average of the closes, its first
difference, and a span-9 exponential moving average with `adjust=False`.
-/

/-- The NumPy weight vector `np.arange(1, 31)`. -/
def wmaWeights : List ℚ := (List.range 30).map fun (i : ℕ) => (i : ℚ) + 1

/-- The NumPy dot product used inside the rolling window. -/
def npDot (xs ys : List ℚ) : ℚ := (List.zipWith (· * ·) xs ys).sum

/-- Rolling 30-bar WMA at row `t` of the close series `c`:
`np.dot(prices, np.arange(1, 31)) / np.arange(1, 31).sum()` over the
window of rows `t-29 .. t`; pandas leaves NaN (here `none`) for the first
29 rows where the window is incomplete. -/
def wmaAt (c : ℕ → ℚ) (t : ℕ) : Option ℚ :=
  if 29 ≤ t then
    some (npDot ((List.range 30).map fun i => c (t - 29 + i)) wmaWeights / wmaWeights.sum)
  else none

/-- First difference `df['WMA'].diff(1)` of the rolling WMA: NaN at row 0
and wherever either operand is NaN. -/
def wmaSlopeAt (c : ℕ → ℚ) : ℕ → Option ℚ
  | 0 => none
  | t + 1 =>
    match wmaAt c (t + 1), wmaAt c t with
    | some a, some b => some (a - b)
    | _, _ => none

/-- Exponential moving average `df['Close'].ewm(span=span, adjust=False).mean()`:
seeded with the first close, then the standard recursion with smoothing
factor `2 / (span + 1)`. -/
def ewmaAt (span : ℚ) (c : ℕ → ℚ) : ℕ → ℚ
  | 0 => c 0
  | t + 1 => (2 / (span + 1)) * c (t + 1) + (1 - 2 / (span + 1)) * ewmaAt span c t

/-- Annotates a raw series (defined closes, possibly-NaN lows) exactly as
`compute_wma_and_slope` leaves the dataframe: warm-up rows of `WMA` and
`WMA_Slope` hold NaN, `EMA9` is defined from row 0. -/
def annotate (closes : List ℚ) (lows : List PVal) : List BarData :=
  let c : ℕ → ℚ := fun i => closes.getD i 0
  (List.range closes.length).map fun t =>
    { date := t
      close := .num (c t)
      wma := optPVal (wmaAt c t)
      slope := optPVal (wmaSlopeAt c t)
      ema9 := .num (ewmaAt 9 c t)
      low := lows.getD t .nan }

/-
Backtest driver of buy_sell.py (`detect_weinstein_signals`): the early
return for fewer than 40 rows, the replay loop over rows 30 .. len-1, the
forced liquidation at the last row, and the assembly of the result record.
The reported CAGR is a real-power expression and is modelled separately
(`cagrOf` below); the rational-valued fields are collected here.
-/

/-- The result record of `detect_weinstein_signals`, without the CAGR field. -/
structure BacktestResult where
  trades : ℕ
  totalProfit : ℚ
  successfulTrades : ℕ
  tradeDetails : List Trade
deriving DecidableEq

/-- The degenerate zero-trade record returned for short series. -/
def degenerateResult : BacktestResult :=
  { trades := 0, totalProfit := 0, successfulTrades := 0, tradeDetails := [] }

/-- Replay loop of buy_sell.py: `for i in range(30, len(df))`. -/
def buySellReplay (bars : List BarData) (capital : ℚ) : St :=
  (bars.drop 30).foldl buySellStep (initSt capital)

/-- Replay plus forced liquidation at the last row (`df.iloc[-1]`). -/
def buySellFinalState (bars : List BarData) (capital : ℚ) : St :=
  match bars.getLast? with
  | some b => buySellFinalize (buySellReplay bars capital) b
  | none => buySellReplay bars capital

/-- Python `t['Profit'] and t['Profit'] > 0`: counts the recorded trades
with a truthy, positive profit. -/
def successfulCount (l : List Trade) : ℕ :=
  (l.filter fun t =>
    match t.profit with
    | some p => decide (p > 0)
    | none => false).length

/-- The rational part of `detect_weinstein_signals` (buy_sell.py lines
45-162): series shorter than 40 rows short-circuit to the degenerate
zero-trade record; otherwise the replay runs and the result is assembled
from the final state.  The cosmetic `round(..., 2)` applied to the reported
profit is not modelled. -/
def detect_weinstein_signals (bars : List BarData) (capital : ℚ) : BacktestResult :=
  if bars.length < 40 then degenerateResult
  else
    let s := buySellFinalState bars capital
    { trades := s.trades
      totalProfit := s.cash - capital
      successfulTrades := successfulCount s.trade_details
      tradeDetails := s.trade_details }

/-- Batch driver (buy_sell.py lines 172-176): every instrument produces a
result record; nothing is skipped or aborted. -/
def runBatch (seriesList : List (List BarData)) (capital : ℚ) : List BacktestResult :=
  seriesList.map fun bars => detect_weinstein_signals bars capital

/-
momemtum_script.py: `detect_signals`, the long-EMA variant.  Its loop
state has no trade log; its bars carry four EMAs.  Bars are not globally
NaN-guarded: each branch carries its own `pd.isna` checks.
-/

/-- One row of the momemtum_script.py dataframe after `compute_indicators`. -/
structure MBar where
  date : ℕ
  close : PVal
  e200 : PVal
  e50 : PVal
  e20 : PVal
  e9 : PVal
  low : PVal
deriving DecidableEq

/-- Loop state of `detect_signals`. -/
structure MSt where
  in_position : Bool
  cash : ℚ
  shares : ℚ
  entry_price : ℚ
  trades : ℕ
  breakdown_candle_low : Option PVal
deriving DecidableEq

/-- Initial loop state of `detect_signals`. -/
def mInit (capital : ℚ) : MSt :=
  { in_position := false, cash := capital, shares := 0, entry_price := 0,
    trades := 0, breakdown_candle_low := none }

/-- One iteration of the `detect_signals` loop (momemtum_script.py lines
46-92). -/
def mStep (s : MSt) (b : MBar) : MSt :=
  let s1 :=
    if s.in_position = false ∧ b.e200.isna = false ∧ b.e50.isna = false ∧
        b.e20.isna = false ∧ b.e9.isna = false ∧ b.close.isna = false then
      if b.close.toQ > b.e200.toQ ∧ b.close.toQ > b.e50.toQ ∧
          b.close.toQ > b.e20.toQ ∧ b.close.toQ > b.e9.toQ then
        let entry_price := b.close.toQ
        let shares : ℚ := ((⌊s.cash / entry_price⌋ : ℤ) : ℚ)
        if shares > 0 then
          { s with cash := s.cash - shares * entry_price, in_position := true,
                   entry_price := entry_price, shares := shares }
        else { s with entry_price := entry_price, shares := shares }
      else s
    else s
  let s2 :=
    if s1.in_position = true ∧ b.e9.isna = false then
      if PVal.lt b.close b.e9 then
        match s1.breakdown_candle_low with
        | none => { s1 with breakdown_candle_low := some b.low }
        | some _ => s1
      else s1
    else s1
  if s2.in_position = true then
    match s2.breakdown_candle_low with
    | none => s2
    | some bdl =>
      if b.close.isna = false ∧ bdl.isna = false then
        if PVal.lt b.close bdl then
          { s2 with cash := s2.cash + s2.shares * b.close.toQ,
                    trades := s2.trades + 1,
                    in_position := false, shares := 0,
                    breakdown_candle_low := none }
        else s2
      else s2
  else s2

/-- Forced liquidation of `detect_signals` (lines 95-100), guarded against
a NaN last close. -/
def mFinalize (s : MSt) (b : MBar) : MSt :=
  if s.in_position = true then
    match b.close with
    | .nan => s
    | .num final_price =>
      { s with cash := s.cash + s.shares * final_price,
               trades := s.trades + 1, in_position := false }
  else s

/-- The result record of `detect_signals`: only trades and total profit. -/
structure MResult where
  trades : ℕ
  totalProfit : ℚ
deriving DecidableEq

/-- `detect_signals` (momemtum_script.py lines 30-103): series shorter than
200 rows short-circuit to the degenerate record; otherwise the loop runs
over rows 200 .. len-1 followed by the guarded liquidation.  The cosmetic
`round(..., 2)` on the reported profit is not modelled. -/
def detect_signals (bars : List MBar) (capital : ℚ) : MResult :=
  if bars.length < 200 then { trades := 0, totalProfit := 0 }
  else
    let s0 := (bars.drop 200).foldl mStep (mInit capital)
    let s := match bars.getLast? with
             | some b => mFinalize s0 b
             | none => s0
    { trades := s.trades, totalProfit := s.cash - capital }

/-- Batch driver of momemtum_script.py (lines 129-133). -/
def runBatchM (seriesList : List (List MBar)) (capital : ℚ) : List MResult :=
  seriesList.map fun bars => detect_signals bars capital

/-
9ema_exit_signal_alert.py: `check_breakdown` (lines 213-247).  The raw
dataframe rows carry a Close and a Low which, after `pd.to_numeric(...,
errors='coerce')`, are either numbers or NaN; rows with a NaN in either
column are dropped before the EMA is computed and the crossover scan runs.
-/

/-- One raw row as seen by `check_breakdown` after numeric coercion. -/
structure Row where
  date : ℕ
  close : PVal
  low : PVal
deriving DecidableEq

/-- Placeholder row for out-of-range list access. -/
def noRow : Row := { date := 0, close := .nan, low := .nan }

/-- `df.dropna(subset=['Close', 'Low'], inplace=True)`. -/
def dropMissing (rows : List Row) : List Row :=
  rows.filter fun r => !r.close.isna && !r.low.isna

/-- The crossover scan of `check_breakdown` (lines 237-247): walk the kept
rows from index 1, returning the first row where the previous close was at
or above the previous EMA and the current close is at or below it. -/
def scanBk (kept : List Row) (c e : ℕ → ℚ) : ℕ → ℕ → Option Row
  | 0, _ => none
  | fuel + 1, i =>
    if i < kept.length then
      if c (i - 1) ≥ e (i - 1) ∧ c i ≤ e (i - 1) then some (kept.getD i noRow)
      else scanBk kept c e fuel (i + 1)
    else none

/-- `check_breakdown` (9ema_exit_signal_alert.py): fewer than 10 rows bail
out; otherwise coerced rows missing Close or Low are dropped, the EMA9 is
computed over the remaining closes, and the crossover scan returns the
breakdown candle, if any. -/
def check_breakdown (rows : List Row) : Option Row :=
  if rows.length < 10 then none
  else
    scanBk (dropMissing rows)
      (fun i => ((dropMissing rows).getD i noRow).close.toQ)
      (ewmaAt 9 fun i => ((dropMissing rows).getD i noRow).close.toQ)
      (dropMissing rows).length 1

/-
Performance metric.  Trading_Script4.py lines 132-136: the per-instrument
CAGR is `((cash / capital) ** (1 / years) - 1) * 100` when `years > 0` and
0 otherwise.  The real power forces this single definition to live in ℝ
and be noncomputable; everything else in this file is executable.
-/

/-- The reported CAGR as a function of final cash, initial capital and the
elapsed years. -/
noncomputable def cagrOf (cash capital years : ℝ) : ℝ :=
  if years > 0 then ((cash / capital) ^ ((1 : ℝ) / years) - 1) * 100 else 0

/-
Helper lemmas shared by several of the theorems below.
-/

/-- A bar list whose defined closes are all positive. -/
def PositiveCloses (bars : List BarData) : Prop :=
  ∀ b ∈ bars, ∀ c : ℚ, b.close = PVal.num c → 0 < c

/-- Both buy branches leave the state alone while a position is open. -/
theorem buyStep_of_long (s : St) (b : BarData) (close wma slope ema9 : ℚ)
    (h : s.in_position = true) : buyStep s b close wma slope ema9 = s := by
  unfold buyStep
  simp [h]

theorem buyStep1_of_long (s : St) (b : BarData) (close wma slope : ℚ)
    (h : s.in_position = true) : buyStep1 s b close wma slope = s := by
  unfold buyStep1
  simp [h]

/-- Breakdown tracking cannot touch an already-set marker. -/
theorem trackStep_of_some (s : St) (b : BarData) (close ema9 : ℚ) (v : PVal)
    (h : s.breakdown_candle_low = some v) : trackStep s b close ema9 = s := by
  unfold trackStep
  rw [h]
  simp

/-- Breakdown tracking changes at most the marker field. -/
theorem trackStep_eq_or (s : St) (b : BarData) (close ema9 : ℚ) :
    trackStep s b close ema9 = s ∨
      trackStep s b close ema9 = { s with breakdown_candle_low := some b.low } := by
  unfold trackStep
  split
  · cases h : s.breakdown_candle_low with
    | none => exact Or.inr rfl
    | some v => exact Or.inl rfl
  · exact Or.inl rfl

/-- The buy_sell.py entry effect when the signal fires and the computed
share count is positive: debit the cash, open the position, reset the
breakdown marker and open a fresh trade record.  The same-bar tracking and
exit branches cannot fire because the entry requires `close > ema9`. -/
theorem buySellStep_entry (s : St) (b : BarData) (c w sl e : ℚ)
    (hc : b.close = .num c) (hw : b.wma = .num w) (hsl : b.slope = .num sl)
    (he : b.ema9 = .num e) (hflat : s.in_position = false)
    (h1 : c > e) (h2 : c > w) (h3 : sl > 0) :
    (((⌊s.cash / c⌋ : ℤ) : ℚ) > 0 →
      buySellStep s b =
        { s with cash := s.cash - ((⌊s.cash / c⌋ : ℤ) : ℚ) * c
                 in_position := true
                 entry_price := c
                 shares := ((⌊s.cash / c⌋ : ℤ) : ℚ)
                 entry_date := some b.date
                 breakdown_candle_low := none
                 current_trade := some { entryDate := b.date, entryPrice := c,
                                         exitDate := none, exitPrice := none, profit := none } }) ∧
    (¬ ((⌊s.cash / c⌋ : ℤ) : ℚ) > 0 →
      buySellStep s b = { s with entry_price := c, shares := ((⌊s.cash / c⌋ : ℤ) : ℚ) }) := by
  have hguard : ¬ (b.close.isna ∨ b.wma.isna ∨ b.slope.isna ∨ b.ema9.isna) := by
    rw [hc, hw, hsl, he]
    simp [PVal.isna]
  constructor
  · intro hsh
    unfold buySellStep
    rw [if_neg hguard, hc, hw, hsl, he]
    show exitStep (trackStep (buyStep s b c w sl e) b c e) b c = _
    unfold buyStep
    rw [if_pos ⟨hflat, h1, h2, h3⟩, if_pos hsh]
    rw [trackStep, if_neg (by simp; exact le_of_lt h1)]
    unfold exitStep
    simp
  · intro hsh
    unfold buySellStep
    rw [if_neg hguard, hc, hw, hsl, he]
    show exitStep (trackStep (buyStep s b c w sl e) b c e) b c = _
    unfold buyStep
    rw [if_pos ⟨hflat, h1, h2, h3⟩, if_neg hsh]
    rw [trackStep, if_neg (by simp [hflat])]
    unfold exitStep
    simp [hflat]

/-- Residual of a floored division: subtracting `floor(x / p) * p` from `x`
leaves an amount in `[0, p)` whenever `p > 0`. -/
theorem floor_residual (x p : ℚ) (hp : 0 < p) :
    0 ≤ x - ((⌊x / p⌋ : ℤ) : ℚ) * p ∧ x - ((⌊x / p⌋ : ℤ) : ℚ) * p < p := by
  have h1 : ((⌊x / p⌋ : ℤ) : ℚ) ≤ x / p := Int.floor_le _
  have h2 : x / p < ((⌊x / p⌋ : ℤ) : ℚ) + 1 := Int.lt_floor_add_one _
  have h3 : ((⌊x / p⌋ : ℤ) : ℚ) * p ≤ x := by
    have h := mul_le_mul_of_nonneg_right h1 hp.le
    rwa [div_mul_cancel₀ _ hp.ne'] at h
  have h4 : x < (((⌊x / p⌋ : ℤ) : ℚ) + 1) * p := by
    have h := mul_lt_mul_of_pos_right h2 hp
    rwa [div_mul_cancel₀ _ hp.ne'] at h
  have h5 : (((⌊x / p⌋ : ℤ) : ℚ) + 1) * p = ((⌊x / p⌋ : ℤ) : ℚ) * p + p := by ring
  rw [h5] at h4
  exact ⟨by linarith, by linarith⟩

/-- Cash and share holdings are never negative. -/
def CashInv (s : St) : Prop := 0 ≤ s.cash ∧ 0 ≤ s.shares

/-- A defined close of a bar with positive closes is positive. -/
theorem toQ_pos (b : BarData) (hb : ∀ c : ℚ, b.close = PVal.num c → 0 < c)
    (h : b.close.isna = false) : 0 < b.close.toQ := by
  cases hc : b.close with
  | nan => rw [hc] at h; simp [PVal.isna] at h
  | num q => simpa [PVal.toQ] using hb q hc

theorem buyStep_cashInv (s : St) (b : BarData) (close wma slope ema9 : ℚ)
    (hc : 0 < close) (h : CashInv s) : CashInv (buyStep s b close wma slope ema9) := by
  unfold buyStep
  split
  · split
    · rename_i hsh
      exact ⟨(floor_residual s.cash close hc).1, le_of_lt hsh⟩
    · refine ⟨h.1, ?_⟩
      have hfl : (0 : ℤ) ≤ ⌊s.cash / close⌋ := Int.floor_nonneg.mpr (div_nonneg h.1 hc.le)
      show (0 : ℚ) ≤ ((⌊s.cash / close⌋ : ℤ) : ℚ)
      exact_mod_cast hfl
  · exact h

theorem trackStep_cashInv (s : St) (b : BarData) (close ema9 : ℚ)
    (h : CashInv s) : CashInv (trackStep s b close ema9) := by
  rcases trackStep_eq_or s b close ema9 with heq | heq <;> rw [heq] <;> exact h

theorem exitStep_cashInv (s : St) (b : BarData) (close : ℚ)
    (hc : 0 ≤ close) (h : CashInv s) : CashInv (exitStep s b close) := by
  unfold exitStep
  split
  · split
    · exact h
    · split
      · exact ⟨add_nonneg h.1 (mul_nonneg h.2 hc), le_refl 0⟩
      · exact h
  · exact h

theorem buySellStep_cashInv (s : St) (b : BarData)
    (hb : ∀ c : ℚ, b.close = PVal.num c → 0 < c) (h : CashInv s) :
    CashInv (buySellStep s b) := by
  unfold buySellStep
  split
  · exact h
  · rename_i hguard
    have hcl : b.close.isna = false := by
      cases hh : b.close.isna with
      | false => rfl
      | true => exact absurd (Or.inl hh) hguard
    have hpos := toQ_pos b hb hcl
    exact exitStep_cashInv _ b _ hpos.le
      (trackStep_cashInv _ b _ _ (buyStep_cashInv s b _ _ _ _ hpos h))

theorem foldl_cashInv (bars : List BarData) :
    ∀ s : St, PositiveCloses bars → CashInv s → CashInv (bars.foldl buySellStep s) := by
  induction bars with
  | nil => exact fun s _ h => h
  | cons b rest ih =>
    intro s hb h
    exact ih _ (fun x hx => hb x (List.mem_cons_of_mem b hx))
      (buySellStep_cashInv s b (hb b (List.mem_cons_self b rest)) h)

/-- Sum of the realized profits recorded in a trade list. -/
def realizedSum (l : List Trade) : ℚ := (l.map fun t => t.profit.getD 0).sum

theorem realizedSum_append_close (l : List Trade) (ct : Trade) (d : ℕ) (x p : ℚ) :
    realizedSum (l ++ [closeTrade ct d x p]) = realizedSum l + p := by
  simp [realizedSum, closeTrade]

/-- Ledger invariant of the Trading_Script1.py replay: cash and shares are
non-negative; when FLAT the shares are zero and the cash is the initial
capital plus every realized profit recorded in the trade list; when LONG a
trade record is open and the cash plus the entry value of the position
equals the same quantity. -/
def LedgerInv (capital : ℚ) (s : St) : Prop :=
  0 ≤ s.cash ∧ 0 ≤ s.shares ∧
  (s.in_position = false → s.shares = 0 ∧
    s.cash = capital + realizedSum s.trade_details) ∧
  (s.in_position = true → (∃ ct, s.current_trade = some ct) ∧
    s.cash + s.shares * s.entry_price = capital + realizedSum s.trade_details)

theorem buyStep1_ledgerInv (capital : ℚ) (s : St) (b : BarData)
    (close wma slope : ℚ) (hc : 0 < close) (h : LedgerInv capital s) :
    LedgerInv capital (buyStep1 s b close wma slope) := by
  unfold buyStep1
  split
  · rename_i hcond
    obtain ⟨hsh0, hcash⟩ := h.2.2.1 hcond.1
    split
    · rename_i hpos
      refine ⟨(floor_residual s.cash close hc).1, le_of_lt hpos, ?_, ?_⟩
      · intro hft; exact absurd hft (by simp)
      · intro _
        refine ⟨⟨_, rfl⟩, ?_⟩
        show s.cash - ((⌊s.cash / close⌋ : ℤ) : ℚ) * close
            + ((⌊s.cash / close⌋ : ℤ) : ℚ) * close = capital + realizedSum s.trade_details
        rw [sub_add_cancel]
        exact hcash
    · rename_i hneg
      have hfl : (0 : ℤ) ≤ ⌊s.cash / close⌋ := Int.floor_nonneg.mpr (div_nonneg h.1 hc.le)
      have hz : ((⌊s.cash / close⌋ : ℤ) : ℚ) = 0 :=
        le_antisymm (not_lt.mp hneg) (by exact_mod_cast hfl)
      refine ⟨h.1, ?_, fun _ => ⟨hz, hcash⟩, fun ht => absurd (hcond.1 ▸ ht) (by simp)⟩
      show (0 : ℚ) ≤ ((⌊s.cash / close⌋ : ℤ) : ℚ)
      exact_mod_cast hfl
  · exact h

theorem trackStep_ledgerInv (capital : ℚ) (s : St) (b : BarData) (close ema9 : ℚ)
    (h : LedgerInv capital s) : LedgerInv capital (trackStep s b close ema9) := by
  rcases trackStep_eq_or s b close ema9 with heq | heq <;> rw [heq] <;> exact h

theorem exitStep1_ledgerInv (capital : ℚ) (s : St) (b : BarData) (close : ℚ)
    (hc : 0 ≤ close) (h : LedgerInv capital s) :
    LedgerInv capital (exitStep1 s b close) := by
  unfold exitStep1
  split
  · rename_i hpos
    obtain ⟨⟨ct, hct⟩, hcash⟩ := h.2.2.2 hpos
    split
    · exact h
    · split
      · rw [hct]
        refine ⟨add_nonneg h.1 (mul_nonneg h.2.1 hc), le_refl 0, fun _ => ⟨rfl, ?_⟩,
          fun hft => absurd hft (by simp)⟩
        show s.cash + s.shares * close =
          capital + realizedSum (s.trade_details ++
            [closeTrade ct b.date close ((close - s.entry_price) * s.shares)])
        rw [realizedSum_append_close]
        linarith [hcash]
      · exact h
  · exact h

theorem script1Step_ledgerInv (capital : ℚ) (s : St) (b : BarData)
    (hb : ∀ c : ℚ, b.close = PVal.num c → 0 < c) (h : LedgerInv capital s) :
    LedgerInv capital (script1Step s b) := by
  unfold script1Step
  split
  · exact h
  · rename_i hguard
    have hcl : b.close.isna = false := by
      cases hh : b.close.isna with
      | false => rfl
      | true => exact absurd (Or.inl hh) hguard
    have hpos := toQ_pos b hb hcl
    exact exitStep1_ledgerInv capital _ b _ hpos.le
      (trackStep_ledgerInv capital _ b _ _ (buyStep1_ledgerInv capital s b _ _ _ hpos h))

theorem foldl_ledgerInv (capital : ℚ) (bars : List BarData) :
    ∀ s : St, PositiveCloses bars → LedgerInv capital s →
      LedgerInv capital (bars.foldl script1Step s) := by
  induction bars with
  | nil => exact fun s _ h => h
  | cons b rest ih =>
    intro s hb h
    exact ih _ (fun x hx => hb x (List.mem_cons_of_mem b hx))
      (script1Step_ledgerInv capital s b (hb b (List.mem_cons_self b rest)) h)

/-- Concrete three-bar scenario for the counterexamples: entry at close 10
(10 shares from capital 100), breakdown marker 3 on the dip to 4, losing
exit at close 2 for a realized loss of 80. -/
def barEntry : BarData := ⟨0, .num 10, .num 5, .num 1, .num 5, .num 10⟩

/-- Second bar of the concrete scenario (dip below the EMA, low 3). -/
def barDip : BarData := ⟨1, .num 4, .num 5, .num 1, .num 5, .num 3⟩

/-- Third bar of the concrete scenario (close 2 under the marker 3). -/
def barCrash : BarData := ⟨2, .num 2, .num 5, .num 1, .num 5, .num 2⟩

/-
Claim theorems.
-/

/-- C9: a bar at which any consumed indicator (close, wma, wmaSlope or ema)
is indeterminate is inert: the replay step of both scripts returns the
carried state unchanged, so cash, shares, position flag, trade count,
trade list and breakdown marker are all untouched. -/
theorem indeterminate_bar_inert (s : St) (b : BarData)
    (h : b.close.isna = true ∨ b.wma.isna = true ∨ b.slope.isna = true ∨
      b.ema9.isna = true) :
    buySellStep s b = s ∧ script1Step s b = s := by
  unfold buySellStep script1Step
  rcases h with h | h | h | h <;> simp [h]

/-- Witness for `indeterminate_bar_inert` at a concrete NaN-close bar. -/
theorem indeterminate_bar_inert_witness :
    buySellStep (initSt 7) ⟨0, .nan, .num 1, .num 1, .num 1, .num 1⟩ = initSt 7 ∧
    script1Step (initSt 7) ⟨0, .nan, .num 1, .num 1, .num 1, .num 1⟩ = initSt 7 :=
  indeterminate_bar_inert (initSt 7) _ (Or.inl rfl)

/-- C3: while the position is LONG and the breakdown marker is set, one
replay step of either script either keeps the marker literally unchanged
(still LONG), or closes the position; no bar can overwrite or clear the
marker while the position stays open — in particular a bar with
`close ≥ ema` leaves it unchanged. -/
theorem breakdown_marker_sticky (s : St) (b : BarData) (v : PVal)
    (hpos : s.in_position = true) (hbd : s.breakdown_candle_low = some v) :
    ((buySellStep s b).breakdown_candle_low = some v ∧ (buySellStep s b).in_position = true ∨
      (buySellStep s b).in_position = false) ∧
    ((script1Step s b).breakdown_candle_low = some v ∧ (script1Step s b).in_position = true ∨
      (script1Step s b).in_position = false) := by
  constructor
  · unfold buySellStep
    split
    · exact Or.inl ⟨hbd, hpos⟩
    · simp only [buyStep_of_long _ _ _ _ _ _ hpos, trackStep_of_some _ _ _ _ v hbd]
      unfold exitStep
      rw [if_pos hpos]
      simp only [hbd]
      split
      · exact Or.inr rfl
      · exact Or.inl ⟨hbd, hpos⟩
  · unfold script1Step
    split
    · exact Or.inl ⟨hbd, hpos⟩
    · simp only [buyStep1_of_long _ _ _ _ _ hpos, trackStep_of_some _ _ _ _ v hbd]
      unfold exitStep1
      rw [if_pos hpos]
      simp only [hbd]
      split
      · exact Or.inr rfl
      · exact Or.inl ⟨hbd, hpos⟩

/-- Witness for `breakdown_marker_sticky`: a LONG state with marker 3 and a
recovered close of 9 (above the EMA 5) keeps the marker. -/
theorem breakdown_marker_sticky_witness :
    (let s : St := ⟨true, 10, 0, 0, 10, some 0, some ⟨0, 10, none, none, none⟩,
        some (.num 3), []⟩
     let b : BarData := ⟨1, .num 9, .num 5, .num 1, .num 5, .num 8⟩
     ((buySellStep s b).breakdown_candle_low = some (.num 3) ∧
        (buySellStep s b).in_position = true ∨ (buySellStep s b).in_position = false) ∧
     ((script1Step s b).breakdown_candle_low = some (.num 3) ∧
        (script1Step s b).in_position = true ∨ (script1Step s b).in_position = false)) :=
  breakdown_marker_sticky _ _ (.num 3) rfl rfl

/-- C1: from a FLAT state with zero holdings, a bar with all indicators
defined and `close > ema`, `close > wma`, `slope > 0` enters a position:
`entryPrice = close`, `shares = floor(cash / close)`; when the computed
share count is positive the cash is debited by `shares * close`, the state
becomes LONG, the breakdown marker is cleared and a fresh trade recording
the entry date and price is opened; when the share count is zero nothing
but the scratch `entry_price` variable changes — the ledger is untouched
and no error is raised. -/
theorem flat_to_long_entry (s : St) (b : BarData) (c w sl e : ℚ)
    (hc : b.close = .num c) (hw : b.wma = .num w) (hsl : b.slope = .num sl)
    (he : b.ema9 = .num e) (hflat : s.in_position = false) (hsh0 : s.shares = 0)
    (hcpos : 0 < c) (h1 : c > e) (h2 : c > w) (h3 : sl > 0) :
    (((⌊s.cash / c⌋ : ℤ) : ℚ) > 0 →
      buySellStep s b =
        { s with cash := s.cash - ((⌊s.cash / c⌋ : ℤ) : ℚ) * c
                 in_position := true
                 entry_price := c
                 shares := ((⌊s.cash / c⌋ : ℤ) : ℚ)
                 entry_date := some b.date
                 breakdown_candle_low := none
                 current_trade := some { entryDate := b.date, entryPrice := c,
                                         exitDate := none, exitPrice := none, profit := none } }) ∧
    (((⌊s.cash / c⌋ : ℤ) : ℚ) = 0 →
      buySellStep s b = { s with entry_price := c }) := by
  obtain ⟨hfire, hskip⟩ := buySellStep_entry s b c w sl e hc hw hsl he hflat h1 h2 h3
  refine ⟨hfire, fun hz => ?_⟩
  rw [hskip (by rw [hz]; exact lt_irrefl 0), hz, ← hsh0]

/-- Witness for `flat_to_long_entry`: capital 100, entry at close 10 buys
10 shares and empties the cash. -/
theorem flat_to_long_entry_witness :
    buySellStep (initSt 100) ⟨0, .num 10, .num 5, .num 1, .num 5, .num 10⟩ =
      ⟨true, 10, 0, 0, 10, some 0, some ⟨0, 10, none, none, none⟩, none, []⟩ := by
  have h := (flat_to_long_entry (initSt 100)
      ⟨0, .num 10, .num 5, .num 1, .num 5, .num 10⟩ 10 5 1 5 rfl rfl rfl rfl rfl rfl
      (by norm_num) (by norm_num) (by norm_num) (by norm_num)).1 (by norm_num [initSt])
  rw [h]
  norm_num [initSt]

/-- C10: a replay that starts from non-negative capital and consumes only
positive (defined) closes keeps the cash non-negative after every step,
and immediately after an entry the residual cash lies in
`[0, entryPrice)`, because the position size is the floored quotient
`cash / entryPrice` and the debit never exceeds the cash held. -/
theorem cash_nonneg_and_entry_residual :
    (∀ (capital : ℚ) (bars : List BarData), 0 ≤ capital → PositiveCloses bars →
        0 ≤ (bars.foldl buySellStep (initSt capital)).cash) ∧
    (∀ (s : St) (b : BarData) (c w sl e : ℚ),
        b.close = .num c → b.wma = .num w → b.slope = .num sl → b.ema9 = .num e →
        s.in_position = false → c > e → c > w → sl > 0 → 0 < c →
        ((⌊s.cash / c⌋ : ℤ) : ℚ) > 0 →
        0 ≤ (buySellStep s b).cash ∧ (buySellStep s b).cash < c) := by
  constructor
  · intro capital bars hcap hb
    exact (foldl_cashInv bars (initSt capital) hb ⟨hcap, le_refl 0⟩).1
  · intro s b c w sl e hc hw hsl he hflat h1 h2 h3 hcpos hsh
    rw [(buySellStep_entry s b c w sl e hc hw hsl he hflat h1 h2 h3).1 hsh]
    exact floor_residual s.cash c hcpos

/-- C2 counterexample: replaying the concrete three-bar scenario through
the buy_sell.py engine closes a position (the trade counter reaches 1 and
the state returns to FLAT) yet appends nothing to the trade list, because
the realized profit `(2 - 10) * 10 = -80` is not positive; this refutes
the claim that every position close appends exactly one completed trade
regardless of the profit sign. -/
theorem losing_exit_drops_trade :
    ([barEntry, barDip, barCrash].foldl buySellStep (initSt 100)).trades = 1 ∧
    ([barEntry, barDip, barCrash].foldl buySellStep (initSt 100)).in_position = false ∧
    ([barEntry, barDip, barCrash].foldl buySellStep (initSt 100)).trade_details = [] := by
  norm_num [List.foldl, buySellStep, buyStep, trackStep, exitStep, initSt,
    PVal.isna, PVal.toQ, PVal.lt, closeTrade, barEntry, barDip, barCrash]

/-- C2 amended: in the Trading_Script1.py variant every position close
appends exactly one completed trade — exit fields and profit filled in —
to the trade list, whatever the sign of the profit, and the end-of-series
forced liquidation appends exactly one terminal trade. -/
theorem close_appends_one_trade_script1 :
    (∀ (s : St) (b : BarData) (c w sl e : ℚ) (ct : Trade) (bdl : PVal),
      b.close = .num c → b.wma = .num w → b.slope = .num sl → b.ema9 = .num e →
      s.in_position = true → s.current_trade = some ct →
      s.breakdown_candle_low = some bdl → PVal.lt (.num c) bdl = true →
      (script1Step s b).trade_details =
          s.trade_details ++ [closeTrade ct b.date c ((c - s.entry_price) * s.shares)] ∧
        (script1Step s b).trades = s.trades + 1 ∧
        (script1Step s b).in_position = false) ∧
    (∀ (s : St) (b : BarData) (fp : ℚ) (ct : Trade),
      s.in_position = true → b.close = .num fp → s.current_trade = some ct →
      (script1Finalize s b).trade_details =
          s.trade_details ++ [closeTrade ct b.date fp ((fp - s.entry_price) * s.shares)] ∧
        (script1Finalize s b).trades = s.trades + 1) := by
  constructor
  · intro s b c w sl e ct bdl hc hw hsl he hpos hct hbd hlt
    have hguard : ¬ (b.close.isna = true ∨ b.wma.isna = true ∨ b.slope.isna = true ∨
        b.ema9.isna = true) := by
      rw [hc, hw, hsl, he]
      simp [PVal.isna]
    have htoq : b.close.toQ = c := by rw [hc]; rfl
    unfold script1Step
    rw [if_neg hguard]
    simp only [buyStep1_of_long _ _ _ _ _ hpos, trackStep_of_some _ _ _ _ bdl hbd, htoq]
    unfold exitStep1
    rw [if_pos hpos]
    simp only [hbd]
    rw [if_pos hlt, hct]
    exact ⟨rfl, rfl, rfl⟩
  · intro s b fp ct hpos hfp hct
    unfold script1Finalize
    rw [if_pos hpos]
    simp only [hfp, hct]
    exact ⟨rfl, trivial⟩

/-- Witness for `close_appends_one_trade_script1`: a LONG state holding 10
shares from entry price 10 with marker 3, hit by a close of 2, records
exactly the completed losing trade; the finalisation clause is exercised
on the same state at a last close of 4. -/
theorem close_appends_one_trade_script1_witness :
    (let s : St := ⟨true, 10, 0, 0, 10, some 0, some ⟨0, 10, none, none, none⟩,
        some (.num 3), []⟩
     (script1Step s barCrash).trade_details =
        [closeTrade ⟨0, 10, none, none, none⟩ 2 2 ((2 - 10) * 10)] ∧
      (script1Step s barCrash).trades = 1 ∧
      (script1Step s barCrash).in_position = false) ∧
    (let s : St := ⟨true, 10, 0, 0, 10, some 0, some ⟨0, 10, none, none, none⟩,
        some (.num 3), []⟩
     (script1Finalize s barDip).trade_details =
        [closeTrade ⟨0, 10, none, none, none⟩ 1 4 ((4 - 10) * 10)] ∧
      (script1Finalize s barDip).trades = 1) :=
  ⟨(close_appends_one_trade_script1.1 _ barCrash 2 5 1 5 ⟨0, 10, none, none, none⟩
      (.num 3) rfl rfl rfl rfl rfl rfl rfl (by norm_num [PVal.lt])),
   (close_appends_one_trade_script1.2 _ barDip 4 ⟨0, 10, none, none, none⟩
      rfl rfl rfl)⟩

/-- Credit side of a sale, identical in both scripts: when the exit fires,
the cash grows by exactly `shares * exitPrice` — no fee or slippage. -/
theorem exit_cash_credit (s : St) (b : BarData) (c w sl e : ℚ) (bdl : PVal)
    (hc : b.close = .num c) (hw : b.wma = .num w) (hsl : b.slope = .num sl)
    (he : b.ema9 = .num e) (hpos : s.in_position = true)
    (hbd : s.breakdown_candle_low = some bdl) (hlt : PVal.lt (.num c) bdl = true) :
    (buySellStep s b).cash = s.cash + s.shares * c ∧
    (script1Step s b).cash = s.cash + s.shares * c := by
  have hguard : ¬ (b.close.isna = true ∨ b.wma.isna = true ∨ b.slope.isna = true ∨
      b.ema9.isna = true) := by
    rw [hc, hw, hsl, he]
    simp [PVal.isna]
  have htoq : b.close.toQ = c := by rw [hc]; rfl
  constructor
  · unfold buySellStep
    rw [if_neg hguard]
    simp only [buyStep_of_long _ _ _ _ _ _ hpos, trackStep_of_some _ _ _ _ bdl hbd, htoq]
    unfold exitStep
    rw [if_pos hpos]
    simp only [hbd]
    rw [if_pos hlt]
  · unfold script1Step
    rw [if_neg hguard]
    simp only [buyStep1_of_long _ _ _ _ _ hpos, trackStep_of_some _ _ _ _ bdl hbd, htoq]
    unfold exitStep1
    rw [if_pos hpos]
    simp only [hbd]
    rw [if_pos hlt]

/-- C4 counterexample: after the concrete losing scenario the buy_sell.py
state is FLAT with cash 20, but the claimed identity
`cash + shares * lastClose = capital + sum of recorded profits` fails,
because the losing trade was never recorded: the right-hand side is still
the initial capital 100. -/
theorem flat_ledger_identity_fails_buy_sell :
    ([barEntry, barDip, barCrash].foldl buySellStep (initSt 100)).in_position = false ∧
    ([barEntry, barDip, barCrash].foldl buySellStep (initSt 100)).cash +
        ([barEntry, barDip, barCrash].foldl buySellStep (initSt 100)).shares * 2 ≠
      100 + realizedSum
        ([barEntry, barDip, barCrash].foldl buySellStep (initSt 100)).trade_details := by
  norm_num [List.foldl, buySellStep, buyStep, trackStep, exitStep, initSt,
    PVal.isna, PVal.toQ, PVal.lt, closeTrade, barEntry, barDip, barCrash, realizedSum]

/-- C4 amended: the sale itself is exact and fee-free in both variants
(the cash grows by `shares * exitPrice`, so post-sale cash equals the cash
before the entry plus `shares * (exitPrice - entryPrice)`), and in the
Trading_Script1.py variant — which records every trade — any replay from
non-negative capital over positive closes satisfies, whenever it is FLAT,
`cash + shares * lastClose = capital + sum of the profits recorded in the
trade list`. -/
theorem flat_ledger_identity_script1 :
    (∀ (capital : ℚ) (bars : List BarData), 0 ≤ capital → PositiveCloses bars →
      (bars.foldl script1Step (initSt capital)).in_position = false →
      ∀ lastClose : ℚ,
        (bars.foldl script1Step (initSt capital)).cash +
            (bars.foldl script1Step (initSt capital)).shares * lastClose =
          capital + realizedSum
            (bars.foldl script1Step (initSt capital)).trade_details) ∧
    (∀ (s : St) (b : BarData) (c w sl e : ℚ) (bdl : PVal),
      b.close = .num c → b.wma = .num w → b.slope = .num sl → b.ema9 = .num e →
      s.in_position = true → s.breakdown_candle_low = some bdl →
      PVal.lt (.num c) bdl = true →
      (script1Step s b).cash = s.cash + s.shares * c) := by
  constructor
  · intro capital bars hcap hb hflat lastClose
    have hinv := foldl_ledgerInv capital bars (initSt capital) hb
      ⟨hcap, le_refl 0, fun _ => ⟨rfl, by simp [realizedSum, initSt]⟩,
       fun ht => absurd ht (by simp [initSt])⟩
    obtain ⟨hsh0, hcash⟩ := hinv.2.2.1 hflat
    rw [hsh0, hcash]
    ring
  · intro s b c w sl e bdl hc hw hsl he hpos hbd hlt
    exact (exit_cash_credit s b c w sl e bdl hc hw hsl he hpos hbd hlt).2

/-- Witness for `flat_ledger_identity_script1`: the empty replay at
capital 100 satisfies the FLAT identity at last close 5, and the concrete
sale of 10 shares at close 2 credits exactly 20. -/
theorem flat_ledger_identity_script1_witness :
    (([] : List BarData).foldl script1Step (initSt 100)).cash +
        (([] : List BarData).foldl script1Step (initSt 100)).shares * 5 =
      100 + realizedSum (([] : List BarData).foldl script1Step (initSt 100)).trade_details ∧
    (let s : St := ⟨true, 10, 0, 0, 10, some 0, some ⟨0, 10, none, none, none⟩,
        some (.num 3), []⟩
     (script1Step s barCrash).cash = s.cash + s.shares * 2) :=
  ⟨flat_ledger_identity_script1.1 100 [] (by norm_num) (by simp [PositiveCloses]) rfl 5,
   flat_ledger_identity_script1.2 _ barCrash 2 5 1 5 (.num 3) rfl rfl rfl rfl rfl rfl
     (by norm_num [PVal.lt])⟩

/-- Witness for `cash_nonneg_and_entry_residual`: an empty replay at
capital 7 keeps non-negative cash, and the concrete entry at close 10 from
cash 100 leaves residual cash 0 below the entry price. -/
theorem cash_nonneg_and_entry_residual_witness :
    0 ≤ (([] : List BarData).foldl buySellStep (initSt 7)).cash ∧
    0 ≤ (buySellStep (initSt 100) ⟨0, .num 10, .num 5, .num 1, .num 5, .num 10⟩).cash ∧
    (buySellStep (initSt 100) ⟨0, .num 10, .num 5, .num 1, .num 5, .num 10⟩).cash < 10 := by
  refine ⟨cash_nonneg_and_entry_residual.1 7 [] (by norm_num) (by simp [PositiveCloses]), ?_, ?_⟩
  · exact (cash_nonneg_and_entry_residual.2 (initSt 100)
      ⟨0, .num 10, .num 5, .num 1, .num 5, .num 10⟩ 10 5 1 5 rfl rfl rfl rfl rfl
      (by norm_num) (by norm_num) (by norm_num) (by norm_num) (by norm_num [initSt])).1
  · exact (cash_nonneg_and_entry_residual.2 (initSt 100)
      ⟨0, .num 10, .num 5, .num 1, .num 5, .num 10⟩ 10 5 1 5 rfl rfl rfl rfl rfl
      (by norm_num) (by norm_num) (by norm_num) (by norm_num) (by norm_num [initSt])).2


/-- Reference WMA following the specification text: the most recent 30
closes weighted 1..30 oldest to newest, divided by `30 * 31 / 2`; stated
only to be compared with the pipeline definition `wmaAt`. -/
def wmaReference (c : ℕ → ℚ) (t : ℕ) : Option ℚ :=
  if 29 ≤ t then
    some ((((List.range 30).map fun (i : ℕ) => ((i : ℚ) + 1) * c (t - 29 + i)).sum) / (30 * 31 / 2))
  else none

theorem zipWith_mul_map (l : List ℕ) (f g : ℕ → ℚ) :
    List.zipWith (· * ·) (l.map f) (l.map g) = l.map fun i => f i * g i := by
  induction l with
  | nil => rfl
  | cons a l ih => simp [ih]

theorem range_weight_sum (n : ℕ) :
    ((List.range n).map fun (i : ℕ) => (i : ℚ) + 1).sum = n * (n + 1) / 2 := by
  induction n with
  | zero => simp
  | succ n ih =>
    rw [List.range_succ, List.map_append, List.sum_append, ih]
    push_cast
    ring_nf
    simp
    ring

theorem wmaAt_eq_reference (c : ℕ → ℚ) (t : ℕ) : wmaAt c t = wmaReference c t := by
  unfold wmaAt wmaReference
  split
  · rw [npDot, wmaWeights, zipWith_mul_map]
    have hnum : (fun (i : ℕ) => c (t - 29 + i) * ((i : ℚ) + 1)) =
        fun (i : ℕ) => ((i : ℚ) + 1) * c (t - 29 + i) := by
      funext i
      ring
    rw [hnum]
    have hden : ((List.range 30).map fun (i : ℕ) => (i : ℚ) + 1).sum = 30 * 31 / 2 := by
      rw [range_weight_sum 30]
      norm_num
    rw [hden]
  · rfl

/-- C5: the indicator pipeline matches its reference definition: the
rolling WMA equals the 1..30-weighted average of the last 30 closes over
`30 * 31 / 2` and is undefined before bar 29; the slope is the difference
of consecutive WMAs, undefined when either operand is; the EMA is seeded
with the first close and follows the `alpha = 2 / (span + 1)` recursion
with no bias correction, so a constant close series has a constant EMA. -/
theorem indicator_pipeline_reference :
    (∀ (c : ℕ → ℚ) (t : ℕ), wmaAt c t = wmaReference c t) ∧
    (∀ (c : ℕ → ℚ) (t : ℕ), t < 29 → wmaAt c t = none) ∧
    (∀ c : ℕ → ℚ, wmaSlopeAt c 0 = none) ∧
    (∀ (c : ℕ → ℚ) (t : ℕ) (a b : ℚ), wmaAt c (t + 1) = some a → wmaAt c t = some b →
      wmaSlopeAt c (t + 1) = some (a - b)) ∧
    (∀ (c : ℕ → ℚ) (t : ℕ), wmaAt c (t + 1) = none ∨ wmaAt c t = none →
      wmaSlopeAt c (t + 1) = none) ∧
    (∀ c : ℕ → ℚ, ewmaAt 9 c 0 = c 0) ∧
    (∀ (c : ℕ → ℚ) (t : ℕ),
      ewmaAt 9 c (t + 1) = (2 / (9 + 1)) * c (t + 1) + (1 - 2 / (9 + 1)) * ewmaAt 9 c t) ∧
    (∀ (k : ℚ) (t : ℕ), ewmaAt 9 (fun _ => k) t = k) := by
  refine ⟨wmaAt_eq_reference, ?_, fun c => rfl, ?_, ?_, fun c => rfl, fun c t => rfl, ?_⟩
  · intro c t h
    unfold wmaAt
    rw [if_neg (by omega)]
  · intro c t a b h1 h2
    simp only [wmaSlopeAt, h1, h2]
  · intro c t h
    rcases h with h | h
    · simp only [wmaSlopeAt, h]
    · simp only [wmaSlopeAt, h]
      cases wmaAt c (t + 1) <;> rfl
  · intro k t
    induction t with
    | zero => rfl
    | succ n ih =>
      rw [ewmaAt, ih]
      ring

/-- Witness for `indicator_pipeline_reference`: the WMA is undefined at
bar 5, and the EMA of the constant series 2 is 2 at bar 3. -/
theorem indicator_pipeline_reference_witness :
    wmaAt (fun _ => (1 : ℚ)) 5 = none ∧ ewmaAt 9 (fun _ => (2 : ℚ)) 3 = 2 :=
  ⟨indicator_pipeline_reference.2.1 _ 5 (by norm_num),
   indicator_pipeline_reference.2.2.2.2.2.2.2 2 3⟩

/-- C6: the reported CAGR is 0 whenever the elapsed years are not positive
(no exception escapes), equals `((cash / capital) ^ (1 / years) - 1) * 100`
for positive years, and at capital 100000, final cash 150000 and 5 years it
is within 0.01 of 8.447. -/
theorem cagr_reported :
    (∀ cash capital years : ℝ, years ≤ 0 → cagrOf cash capital years = 0) ∧
    (∀ cash capital years : ℝ, 0 < years →
      cagrOf cash capital years = ((cash / capital) ^ ((1 : ℝ) / years) - 1) * 100) ∧
    |cagrOf 150000 100000 5 - 8.447| ≤ 1 / 100 := by
  refine ⟨?_, ?_, ?_⟩
  · intro cash capital years h
    unfold cagrOf
    rw [if_neg (not_lt.mpr h)]
  · intro cash capital years h
    unfold cagrOf
    rw [if_pos h]
  · have h0 : cagrOf 150000 100000 5 = ((3 / 2 : ℝ) ^ ((1 : ℝ) / 5) - 1) * 100 := by
      unfold cagrOf
      rw [if_pos (by norm_num)]
      norm_num
    have hy5 : ((3 / 2 : ℝ) ^ ((1 : ℝ) / 5)) ^ (5 : ℕ) = 3 / 2 := by
      rw [← Real.rpow_natCast ((3 / 2 : ℝ) ^ ((1 : ℝ) / 5)) 5,
        ← Real.rpow_mul (by norm_num : (0 : ℝ) ≤ 3 / 2)]
      norm_num
    have hyn : 0 ≤ (3 / 2 : ℝ) ^ ((1 : ℝ) / 5) := Real.rpow_nonneg (by norm_num) _
    have hlow : (108437 / 100000 : ℝ) < (3 / 2 : ℝ) ^ ((1 : ℝ) / 5) := by
      apply lt_of_pow_lt_pow_left₀ 5 hyn
      rw [hy5]
      norm_num
    have hhigh : (3 / 2 : ℝ) ^ ((1 : ℝ) / 5) < (108457 / 100000 : ℝ) := by
      apply lt_of_pow_lt_pow_left₀ 5 (by norm_num : (0 : ℝ) ≤ 108457 / 100000)
      rw [hy5]
      norm_num
    rw [h0, abs_le]
    constructor <;> nlinarith [hlow, hhigh]

/-- Witness for `cagr_reported` at concrete inputs: zero years report 0 and
one year reports the plain growth formula. -/
theorem cagr_reported_witness :
    cagrOf 1 1 0 = 0 ∧
    cagrOf 2 1 1 = ((2 / 1 : ℝ) ^ ((1 : ℝ) / 1) - 1) * 100 :=
  ⟨cagr_reported.1 1 1 0 (le_refl 0), cagr_reported.2.1 2 1 1 one_pos⟩

/-- C7: a series shorter than the configured minimum (40 bars for the WMA
variant, 200 for the long-EMA variant) yields the degenerate zero-trade
result without raising, and the batch drivers always produce one result
record per instrument — no per-instrument input aborts the batch. -/
theorem short_series_degenerate :
    (∀ (bars : List BarData) (capital : ℚ), bars.length < 40 →
      detect_weinstein_signals bars capital = degenerateResult) ∧
    (∀ (bars : List MBar) (capital : ℚ), bars.length < 200 →
      detect_signals bars capital = { trades := 0, totalProfit := 0 }) ∧
    (∀ (seriesList : List (List BarData)) (capital : ℚ),
      (runBatch seriesList capital).length = seriesList.length) ∧
    (∀ (seriesList : List (List MBar)) (capital : ℚ),
      (runBatchM seriesList capital).length = seriesList.length) := by
  refine ⟨?_, ?_, ?_, ?_⟩
  · intro bars capital h
    unfold detect_weinstein_signals
    rw [if_pos h]
  · intro bars capital h
    unfold detect_signals
    rw [if_pos h]
  · intro seriesList capital
    unfold runBatch
    exact List.length_map _ _
  · intro seriesList capital
    unfold runBatchM
    exact List.length_map _ _

/-- Witness for `short_series_degenerate` on empty inputs. -/
theorem short_series_degenerate_witness :
    detect_weinstein_signals [] 5 = degenerateResult ∧
    detect_signals [] 5 = { trades := 0, totalProfit := 0 } ∧
    (runBatch [[]] 5).length = 1 ∧ (runBatchM [[]] 5).length = 1 :=
  ⟨short_series_degenerate.1 [] 5 (by norm_num),
   short_series_degenerate.2.1 [] 5 (by norm_num),
   short_series_degenerate.2.2.1 [[]] 5,
   short_series_degenerate.2.2.2 [[]] 5⟩

/-- Bar with defined indicators but a NaN low, the close dipping under the
EMA. -/
def barNanLow : BarData := ⟨1, .num 4, .num 5, .num 1, .num 5, .nan⟩

/-- C8 counterexample: in the buy_sell.py replay the `Low` column is never
validated; after an entry, a bar with defined close, WMA, slope and EMA
but a NaN low assigns that NaN to the breakdown marker while the position
stays open, refuting the claim that the replay never consumes a missing
Low and never stores an undefined marker. -/
theorem nan_low_assigned_to_marker :
    ([barEntry, barNanLow].foldl buySellStep (initSt 100)).breakdown_candle_low =
        some PVal.nan ∧
    ([barEntry, barNanLow].foldl buySellStep (initSt 100)).in_position = true := by
  norm_num [List.foldl, buySellStep, buyStep, trackStep, exitStep, initSt,
    PVal.isna, PVal.toQ, PVal.lt, barEntry, barNanLow]

theorem scanBk_mem (kept : List Row) (c e : ℕ → ℚ) :
    ∀ (fuel i : ℕ) (r : Row), scanBk kept c e fuel i = some r → r ∈ kept := by
  intro fuel
  induction fuel with
  | zero =>
    intro i r h
    exact absurd h (by simp [scanBk])
  | succ n ih =>
    intro i r h
    unfold scanBk at h
    split at h
    · split at h
      · rename_i hilen _
        have hr : kept.getD i noRow = r := by injection h
        rw [← hr, List.getD_eq_getElem kept noRow hilen]
        exact List.getElem_mem hilen
      · exact ih (i + 1) r h
    · exact absurd h (by simp)

/-- C8 amended: in `check_breakdown` (the 9ema alert script) every row
kept after coercion and `dropna` has a defined Close and Low, and in
particular any returned breakdown candle has a defined Low; the backtest
replay of buy_sell.py, by contrast, does not validate `Low` (see the
counterexample). -/
theorem check_breakdown_drops_missing :
    (∀ (rows : List Row) (r : Row), r ∈ dropMissing rows →
      r.close.isna = false ∧ r.low.isna = false) ∧
    (∀ (rows : List Row) (r : Row), check_breakdown rows = some r →
      r.close.isna = false ∧ r.low.isna = false) := by
  have hkept : ∀ (rows : List Row) (r : Row), r ∈ dropMissing rows →
      r.close.isna = false ∧ r.low.isna = false := by
    intro rows r h
    have h2 := (List.mem_filter.mp h).2
    simpa using h2
  refine ⟨hkept, ?_⟩
  intro rows r h
  unfold check_breakdown at h
  split at h
  · exact absurd h (by simp)
  · exact hkept rows r (scanBk_mem (dropMissing rows) _ _ _ _ r h)

/-- Witness for `check_breakdown_drops_missing` on a singleton row with
defined fields. -/
theorem check_breakdown_drops_missing_witness :
    (Row.mk 0 (.num 1) (.num 1)).close.isna = false ∧
    (Row.mk 0 (.num 1) (.num 1)).low.isna = false :=
  check_breakdown_drops_missing.1 [Row.mk 0 (.num 1) (.num 1)] _
    (by simp [dropMissing, PVal.isna])
